import Mathlib

/-!
Shallow embedding of the vector core of `adv_linalg_lib`
(src/src/vectors/{mod,vector,mut_vector,vector_slice,mut_vector_slice}.rs).

Rust `Vec<T>` / `&[T]` buffers are modelled as `List α`; a panic is
modelled as `Option.none`; in-place mutation is modelled by returning the
post-state of the mutated buffer.
-/

namespace AdvLinAlg

/-- Mirrors `pub struct Vector<T> { values: Vec<T> }` (mod.rs, feature "full"). -/
structure Vector (α : Type) where
  values : List α
deriving DecidableEq

/-- Mirrors `pub struct MutVector<T> { values: Vec<T> }` (mod.rs). -/
structure MutVector (α : Type) where
  values : List α
deriving DecidableEq

/-- Mirrors `pub struct VectorSlice<'v, T> { values: &'v [T] }` (mod.rs). -/
structure VectorSlice (α : Type) where
  values : List α
deriving DecidableEq

/-- Mirrors `pub struct MutVectorSlice<'v, T> { values: &'v mut [T] }` (mod.rs). -/
structure MutVectorSlice (α : Type) where
  values : List α
deriving DecidableEq

/-- Rust `slice::split_at(mid)`: panics (here `none`) when `mid > len`,
otherwise yields the prefix of length `mid` and the rest. -/
def split_at (mid : Nat) (l : List α) : Option (List α × List α) :=
  if mid ≤ l.length then some (l.take mid, l.drop mid) else none

/-- Rust `Range<usize>::len()` for `start..stop`: `stop - start`,
saturating at 0 (`Nat` subtraction saturates exactly like `steps_between`). -/
def range_len (start stop : Nat) : Nat := stop - start

/-- Shared body of `Vector::to_slice` (vector.rs lines 13-23),
`MutVector::as_slice` (mut_vector.rs lines 15-25) and
`MutVectorSlice::as_slice` (mut_vector_slice.rs lines 18-27):
`values.split_at(range.start).1.split_at(range.len()).0`. -/
def split_slice (values : List α) (start stop : Nat) : Option (List α) :=
  match split_at start values with
  | none => none
  | some (_, tail) =>
    match split_at (range_len start stop) tail with
    | none => none
    | some (w, _) => some w

/-- Mirrors `Vector::len` (vector.rs lines 9-11). -/
def Vector.len (v : Vector α) : Nat := v.values.length

/-- Mirrors `Vector::to_slice` (vector.rs lines 13-23); a panic of the
underlying `split_at` is `none`. -/
def Vector.to_slice (v : Vector α) (start stop : Nat) : Option (VectorSlice α) :=
  match split_slice v.values start stop with
  | none => none
  | some w => some ⟨w⟩

/-- Mirrors `MutVector::len` (mut_vector.rs lines 11-13). -/
def MutVector.len (v : MutVector α) : Nat := v.values.length

/-- Mirrors `MutVector::as_slice` (mut_vector.rs lines 15-25). -/
def MutVector.as_slice (v : MutVector α) (start stop : Nat) : Option (VectorSlice α) :=
  match split_slice v.values start stop with
  | none => none
  | some w => some ⟨w⟩

/-- Mirrors the default body of the private `Map` trait's `map`
(mod.rs lines 88-99): `self.iter().map(f).collect()`, over the element
sequence any of the four variants exposes through `iter()`. -/
def map_via_iter (f : α → β) (values : List α) : Vector β :=
  ⟨values.map f⟩

/-- Mirrors `Vector::map` (vector.rs lines 38-43). -/
def Vector.map (v : Vector α) (f : α → β) : Vector β :=
  ⟨v.values.map (fun value => f value)⟩

/-- Mirrors the default body of `MapMut::map_mut` (mod.rs lines 132-140).
The source reads `for item in self.iter_mut() { }` followed by `self`:
the loop body is empty, `f` is never invoked, and the elements are
returned unchanged. -/
def map_mut (f : α → α) (values : List α) : List α :=
  values

/-- Mirrors `MutVector::map_mut` (mut_vector.rs lines 48-53), which
delegates to `MapMut::map_mut` and hands back the same container. -/
def MutVector.map_mut (v : MutVector α) (f : α → α) : MutVector α :=
  ⟨AdvLinAlg.map_mut f v.values⟩

/-- Mirrors `MutVectorSlice::map_mut` (mut_vector_slice.rs lines 50-55),
which delegates to `MapMut::map_mut`. -/
def MutVectorSlice.map_mut (v : MutVectorSlice α) (f : α → α) : MutVectorSlice α :=
  ⟨AdvLinAlg.map_mut f v.values⟩

/-- Mirrors the default body of `MapMut::map_index_mut` (mod.rs lines
142-151): `self.iter_mut().enumerate().map(|(index, ..)| index).for_each(f)`
then `self`. The first component is the buffer after the call (unchanged:
only indices are passed to `f` and `for_each` discards what `f` returns);
the second component records the values `f` produced, one call per index
in ascending order. -/
def map_index_mut (f : Nat → β) (values : List α) : List α × List β :=
  (values, (List.range values.length).map f)

/-- Mirrors `MutVector::map_index_mut` (mut_vector.rs lines 55-60),
which delegates to `MapMut::map_index_mut`. -/
def MutVector.map_index_mut (v : MutVector α) (f : Nat → β) : MutVector α × List β :=
  ((⟨(AdvLinAlg.map_index_mut f v.values).1⟩ : MutVector α),
    (AdvLinAlg.map_index_mut f v.values).2)

/-- Mirrors `Vector::combine` (vector.rs lines 85-99): panic (`none`)
when the lengths differ, otherwise the pairwise zip of the two buffers
collected by the while-let push loop. -/
def Vector.combine (v : Vector α) (other : Vector β) (f : α → β → γ) :
    Option (Vector γ) :=
  if v.len ≠ other.len then none
  else some ⟨List.zipWith f v.values other.values⟩

/-- Modelled from the spec: the private `CombineMut` trait is imported by
src/src/vectors/mut_vector.rs and mut_vector_slice.rs but its definition is
not under src/. Per spec sections 4.5 and 7, `combine_mut(other, f)` first
validates the equal-length precondition (SizeMismatch, here `none`, on
violation, before any element is written), then overwrites `self`'s
elements in index order with `f` of the paired values. -/
def combine_mut (f : α → β → α) (lhs : List α) (rhs : List β) : Option (List α) :=
  if lhs.length = rhs.length then some (List.zipWith f lhs rhs) else none

/-- Observable state of the `combine_mut` target after the call: on
failure the target is unchanged (the length is validated before any
write), on success it holds the combined values. -/
def combine_mut_post (f : α → β → α) (lhs : List α) (rhs : List β) : List α :=
  (combine_mut f lhs rhs).getD lhs

/-- The four container variants of the dispatch layer (mod.rs). -/
inductive VKind
  | vector
  | vectorSlice
  | mutVector
  | mutVectorSlice
deriving DecidableEq

/-- Whether a variant is mutable-capable (`MutVector` or `MutVectorSlice`). -/
def VKind.is_mut : VKind → Bool
  | .mutVector => true
  | .mutVectorSlice => true
  | .vector => false
  | .vectorSlice => false

/-- Reuse policy attribute attached to an operator impl row in mod.rs. -/
inductive Policy
  | plain
  | mutLeft
  | mutRight
  | mutBoth
deriving DecidableEq

/-- Dispatch annotations of mod.rs, feature "full": the same 16-row table is
declared for Add (lines 414-434), Mul/dot product (436-456) and Sub
(458-478). Rows 1-4 carry no attribute, rows 5-8 are `#[mut_left]`,
rows 9-12 `#[mut_right]`, rows 13-16 `#[mut_both]`. -/
def opPolicy : VKind → VKind → Policy
  | .vector, .vector => .plain
  | .vectorSlice, .vector => .plain
  | .vector, .vectorSlice => .plain
  | .vectorSlice, .vectorSlice => .plain
  | .mutVector, .vector => .mutLeft
  | .mutVectorSlice, .vector => .mutLeft
  | .mutVector, .vectorSlice => .mutLeft
  | .mutVectorSlice, .vectorSlice => .mutLeft
  | .vector, .mutVector => .mutRight
  | .vectorSlice, .mutVector => .mutRight
  | .vector, .mutVectorSlice => .mutRight
  | .vectorSlice, .mutVectorSlice => .mutRight
  | .mutVector, .mutVector => .mutBoth
  | .mutVectorSlice, .mutVector => .mutBoth
  | .mutVector, .mutVectorSlice => .mutBoth
  | .mutVectorSlice, .mutVectorSlice => .mutBoth

/-- Result of an Add/Sub operator call: a freshly allocated immutable
`Vector` holding the given elements, or a handle to the mutated left or
right operand whose buffer now holds the given elements. -/
inductive VResult (α : Type)
  | fresh (values : List α)
  | leftMut (values : List α)
  | rightMut (values : List α)
deriving DecidableEq

/-- Modelled from the spec: `impl_vector_add!` is a proc-macro from
`adv_linalg_proc_macro` whose expansion is not under src/; only its
invocation (mod.rs lines 414-434) is. Per spec section 4.6: equal length is
required (SizeMismatch, here `none`, on violation); the elementwise sum is
returned as a fresh immutable `Vector` for an unannotated row, written into
and returned as the left operand for a `mut_left` or `mut_both` row
(left-preferred tie-break), and written into and returned as the right
operand for a `mut_right` row. -/
def vector_add [Add α] (lk rk : VKind) (lhs rhs : List α) : Option (VResult α) :=
  if lhs.length = rhs.length then
    some (match opPolicy lk rk with
      | .plain => .fresh (List.zipWith (· + ·) lhs rhs)
      | .mutLeft => .leftMut (List.zipWith (· + ·) lhs rhs)
      | .mutBoth => .leftMut (List.zipWith (· + ·) lhs rhs)
      | .mutRight => .rightMut (List.zipWith (· + ·) lhs rhs))
  else none

/-- Modelled from the spec: `impl_vector_sub!` (invocation at mod.rs lines
458-478, expansion not under src/). Same dispatch as `vector_add` with the
elementwise difference `lhs[i] - rhs[i]` (spec section 4.6). -/
def vector_sub [Sub α] (lk rk : VKind) (lhs rhs : List α) : Option (VResult α) :=
  if lhs.length = rhs.length then
    some (match opPolicy lk rk with
      | .plain => .fresh (List.zipWith (· - ·) lhs rhs)
      | .mutLeft => .leftMut (List.zipWith (· - ·) lhs rhs)
      | .mutBoth => .leftMut (List.zipWith (· - ·) lhs rhs)
      | .mutRight => .rightMut (List.zipWith (· - ·) lhs rhs))
  else none

/-- Modelled from the spec: `impl_dot_product!` (invocation at mod.rs lines
436-456, expansion not under src/). Per spec sections 4.6 and 9: equal
length is required; the result is always the scalar
`sum = T::default(); for i: sum = sum + lhs[i] * rhs[i]`, and the call is
side-effect-free on both operands for every pairing, so the returned
triple carries the scalar together with the observable post-states of the
left and right operand buffers. -/
def dot_product [Add α] [Mul α] [Inhabited α] (lk rk : VKind) (lhs rhs : List α) :
    Option (α × List α × List α) :=
  if lhs.length = rhs.length then
    some ((List.zipWith (· * ·) lhs rhs).foldl (· + ·) default, lhs, rhs)
  else none

/-! Helper lemmas shared across the development. -/

/-- Pointwise reading of a zip of equal-length lists, with the default
value transported through the combining function. -/
theorem getD_zipWith {α β γ : Type} (f : α → β → γ) (l1 : List α) (l2 : List β)
    (d1 : α) (d2 : β) (h : l1.length = l2.length) (i : Nat) :
    (List.zipWith f l1 l2).getD i (f d1 d2) = f (l1.getD i d1) (l2.getD i d2) := by
  induction l1 generalizing l2 i with
  | nil =>
    cases l2 with
    | nil => simp
    | cons y ys => simp at h
  | cons x xs ih =>
    cases l2 with
    | nil => simp at h
    | cons y ys =>
      cases i with
      | zero => simp
      | succ n => simpa using ih ys (by simpa using h) n

/-- Reading a dropped list at position `i` reads the original at `s + i`. -/
theorem drop_getElem_opt (l : List α) (s i : Nat) : (l.drop s)[i]? = l[s + i]? := by
  induction l generalizing s i with
  | nil => simp
  | cons x xs ih =>
    cases s with
    | zero => simp
    | succ n =>
      have := ih n i
      simpa [Nat.succ_add] using this

/-- An in-bounds take-of-drop window is the map over its index range. -/
theorem drop_take_eq_map_range (l : List α) (d : α) (s n : Nat) (h : s + n ≤ l.length) :
    (l.drop s).take n = (List.range n).map (fun i => l.getD (s + i) d) := by
  apply List.ext_getElem?
  intro i
  by_cases hi : i < n
  · rw [List.getElem?_take_of_lt hi, drop_getElem_opt]
    have hsi : s + i < l.length := by omega
    rw [List.getElem?_map, List.getElem?_range hi]
    simp [List.getElem?_eq_getElem hsi, List.getD_eq_getElem?_getD]
  · have h1 : ((l.drop s).take n).length ≤ i := by
      simp [List.length_take, List.length_drop]
      omega
    have h2 : ((List.range n).map fun i => l.getD (s + i) d).length ≤ i := by
      simp
      omega
    rw [List.getElem?_eq_none h1, List.getElem?_eq_none h2]

/-- When the first cut is in bounds and the window fits, `split_slice`
returns the take-of-drop window. -/
theorem split_slice_in_range (values : List α) (start stop : Nat)
    (h1 : start ≤ values.length) (h2 : stop - start ≤ values.length - start) :
    split_slice values start stop = some ((values.drop start).take (stop - start)) := by
  have h3 : stop - start ≤ (values.drop start).length := by
    rw [List.length_drop]
    exact h2
  have e1 : split_at start values = some (values.take start, values.drop start) := by
    unfold split_at
    exact if_pos h1
  have e2 : split_at (stop - start) (values.drop start)
      = some ((values.drop start).take (stop - start),
          (values.drop start).drop (stop - start)) := by
    unfold split_at
    exact if_pos h3
  simp only [split_slice, range_len, e1, e2]

/-- When `stop` exceeds the buffer length, `split_slice` fails. -/
theorem split_slice_oob (values : List α) (start stop : Nat)
    (h : values.length < stop) :
    split_slice values start stop = none := by
  by_cases h1 : start ≤ values.length
  · have h2 : ¬ (stop - start ≤ (values.drop start).length) := by
      rw [List.length_drop]
      omega
    have e1 : split_at start values = some (values.take start, values.drop start) := by
      unfold split_at
      exact if_pos h1
    have e2 : split_at (stop - start) (values.drop start) = none := by
      unfold split_at
      exact if_neg h2
    simp only [split_slice, range_len, e1, e2]
  · have e1 : split_at start values = none := by
      unfold split_at
      exact if_neg h1
    simp only [split_slice, e1]

/-- Combined behaviour of `split_slice` over a half-open range. -/
theorem split_slice_spec (values : List Int) (start stop : Nat) :
    (start ≤ stop → stop ≤ values.length →
      split_slice values start stop
        = some ((List.range (stop - start)).map (fun i => values.getD (start + i) 0))) ∧
    (values.length < stop → split_slice values start stop = none) := by
  constructor
  · intro h1 h2
    have hs : start ≤ values.length := le_trans h1 h2
    rw [split_slice_in_range values start stop hs (Nat.sub_le_sub_right h2 start)]
    rw [drop_take_eq_map_range values 0 start (stop - start) (by omega)]
  · exact split_slice_oob values start stop

/-- The scalar fold of the dot product, re-expressed as the spec's
index-ascending loop `for i in 0..n: sum = sum + lhs[i] * rhs[i]`. -/
theorem dot_fold {α : Type} [Add α] [Mul α] (d : α) (lhs rhs : List α) (a : α)
    (h : lhs.length = rhs.length) :
    (List.zipWith (· * ·) lhs rhs).foldl (· + ·) a
      = (List.range lhs.length).foldl (fun sum i => sum + lhs.getD i d * rhs.getD i d) a := by
  induction lhs generalizing rhs a with
  | nil => simp
  | cons x xs ih =>
    cases rhs with
    | nil => simp at h
    | cons y ys =>
      have h' : xs.length = ys.length := by simpa using h
      rw [List.zipWith_cons_cons, List.foldl_cons, ih ys (a + x * y) h']
      rw [List.length_cons, List.range_succ_eq_map, List.foldl_cons, List.foldl_map]
      simp

/-! Claim theorems. -/

/-- C1: evaluation of the code at the failing input. `map_mut` with
`f = (· + 1)` on elements `[1, 2, 3]` hands back the same container with
its elements still `[1, 2, 3]` — the for-loop body of `MapMut::map_mut`
(mod.rs lines 136-138) is empty, so `f` is never applied — instead of the
claimed overwrite `[2, 3, 4]`; likewise for `MutVectorSlice`. -/
theorem C1_map_mut_noop :
    (MutVector.map_mut ⟨[1, 2, 3]⟩ (fun x : Int => x + 1)).values = [1, 2, 3] ∧
    (MutVector.map_mut ⟨[1, 2, 3]⟩ (fun x : Int => x + 1)).values ≠ [2, 3, 4] ∧
    (MutVectorSlice.map_mut ⟨[1, 2, 3]⟩ (fun x : Int => x + 1)).values = [1, 2, 3] := by
  refine ⟨rfl, by decide, rfl⟩

/-- C2: for every ordered pair of the four variants at equal lengths, Add
and Subtract return a freshly allocated immutable Vector when neither
operand is a Mut variant, write the elementwise result into and return the
left operand whenever the left is a Mut variant (also when both are — the
left-preferred tie-break), and write into and return the right operand
when only the right is a Mut variant. -/
theorem C2_add_sub_dispatch (lk rk : VKind) (lhs rhs : List Int)
    (h : lhs.length = rhs.length) :
    vector_add lk rk lhs rhs = some (
      if lk.is_mut then VResult.leftMut (List.zipWith (· + ·) lhs rhs)
      else if rk.is_mut then VResult.rightMut (List.zipWith (· + ·) lhs rhs)
      else VResult.fresh (List.zipWith (· + ·) lhs rhs)) ∧
    vector_sub lk rk lhs rhs = some (
      if lk.is_mut then VResult.leftMut (List.zipWith (· - ·) lhs rhs)
      else if rk.is_mut then VResult.rightMut (List.zipWith (· - ·) lhs rhs)
      else VResult.fresh (List.zipWith (· - ·) lhs rhs)) := by
  cases lk <;> cases rk <;>
    simp [vector_add, vector_sub, opPolicy, VKind.is_mut, h]

/-- C2 witness at concrete inputs. -/
theorem C2_add_sub_dispatch_witness :
    vector_add VKind.mutVector VKind.mutVector ([1, 2] : List Int) [3, 4]
      = some (VResult.leftMut [4, 6]) ∧
    vector_sub VKind.vector VKind.mutVectorSlice ([1, 2] : List Int) [3, 4]
      = some (VResult.rightMut [-2, -2]) := by
  have h1 := C2_add_sub_dispatch VKind.mutVector VKind.mutVector
    ([1, 2] : List Int) [3, 4] (by decide)
  have h2 := C2_add_sub_dispatch VKind.vector VKind.mutVectorSlice
    ([1, 2] : List Int) [3, 4] (by decide)
  constructor
  · rw [h1.1]
    decide
  · rw [h2.2]
    decide

/-- C3: combine, combine_mut, Add, Subtract and DotProduct fail (the
SizeMismatch condition, modelled as `none`) exactly when the two operand
lengths differ, and on such a failure the observable contents are exactly
as before the call: a failed combine_mut leaves its target untouched
rather than partially overwritten. -/
theorem C3_size_mismatch (lk rk : VKind) (v w : Vector Int)
    (lhs rhs : List Int) (f : Int → Int → Int) :
    ((v.combine w f).isNone ↔ v.len ≠ w.len) ∧
    ((combine_mut f lhs rhs).isNone ↔ lhs.length ≠ rhs.length) ∧
    ((vector_add lk rk lhs rhs).isNone ↔ lhs.length ≠ rhs.length) ∧
    ((vector_sub lk rk lhs rhs).isNone ↔ lhs.length ≠ rhs.length) ∧
    ((dot_product lk rk lhs rhs).isNone ↔ lhs.length ≠ rhs.length) ∧
    (lhs.length ≠ rhs.length → combine_mut_post f lhs rhs = lhs) := by
  refine ⟨?_, ?_, ?_, ?_, ?_, ?_⟩
  · by_cases h : v.len = w.len <;> simp [Vector.combine, h]
  · by_cases h : lhs.length = rhs.length <;> simp [combine_mut, h]
  · by_cases h : lhs.length = rhs.length <;> simp [vector_add, h]
  · by_cases h : lhs.length = rhs.length <;> simp [vector_sub, h]
  · by_cases h : lhs.length = rhs.length <;> simp [dot_product, h]
  · intro h
    simp [combine_mut_post, combine_mut, h]

/-- C3 witness at concrete inputs. -/
theorem C3_size_mismatch_witness :
    (combine_mut (· + ·) ([1, 2] : List Int) [5]).isNone ∧
    combine_mut_post (· + ·) ([1, 2] : List Int) [5] = [1, 2] := by
  have h := C3_size_mismatch VKind.vector VKind.vector ⟨[1, 2]⟩ ⟨[5]⟩
    ([1, 2] : List Int) [5] (· + ·)
  exact ⟨(h.2.1).mpr (by decide), h.2.2.2.2.2 (by decide)⟩

/-- C4: for every ordered pair of the four variants with equal length, the
dot product is the scalar obtained by the fold sum = default; for i in
0..n: sum = sum + lhs[i] * rhs[i], and both operand buffers are observed
unchanged afterwards — including for the Mut pairings. -/
theorem C4_dot_product {α : Type} [Add α] [Mul α] [Inhabited α]
    (lk rk : VKind) (lhs rhs : List α) (h : lhs.length = rhs.length) :
    dot_product lk rk lhs rhs =
      some ((List.range lhs.length).foldl
        (fun sum i => sum + lhs.getD i default * rhs.getD i default) default,
        lhs, rhs) := by
  unfold dot_product
  rw [if_pos h, dot_fold default lhs rhs default h]

/-- C4 witness at concrete inputs. -/
theorem C4_dot_product_witness :
    dot_product VKind.mutVector VKind.mutVectorSlice ([1, 2, 3] : List Int) [3, 2, 1]
      = some (10, [1, 2, 3], [3, 2, 1]) := by
  rw [C4_dot_product VKind.mutVector VKind.mutVectorSlice
    ([1, 2, 3] : List Int) [3, 2, 1] (by decide)]
  decide

/-- C5: addition of equal-length containers is elementwise
lhs[i] + rhs[i] and subtraction is lhs[i] - rhs[i]; concretely for
[1, 2, 3] and [3, 2, 1], Add yields [4, 4, 4], Subtract yields [-2, 0, 2]
and DotProduct yields 10. -/
theorem C5_elementwise (lhs rhs : List Int) (h : lhs.length = rhs.length) (i : Nat) :
    (∃ w, vector_add VKind.vector VKind.vector lhs rhs = some (VResult.fresh w) ∧
      w.length = lhs.length ∧ w.getD i 0 = lhs.getD i 0 + rhs.getD i 0) ∧
    (∃ w, vector_sub VKind.vector VKind.vector lhs rhs = some (VResult.fresh w) ∧
      w.length = lhs.length ∧ w.getD i 0 = lhs.getD i 0 - rhs.getD i 0) ∧
    vector_add VKind.vector VKind.vector ([1, 2, 3] : List Int) [3, 2, 1]
      = some (VResult.fresh [4, 4, 4]) ∧
    vector_sub VKind.vector VKind.vector ([1, 2, 3] : List Int) [3, 2, 1]
      = some (VResult.fresh [-2, 0, 2]) ∧
    dot_product VKind.vector VKind.vector ([1, 2, 3] : List Int) [3, 2, 1]
      = some (10, [1, 2, 3], [3, 2, 1]) := by
  refine ⟨⟨List.zipWith (· + ·) lhs rhs, ?_, ?_, ?_⟩,
    ⟨List.zipWith (· - ·) lhs rhs, ?_, ?_, ?_⟩, by decide, by decide, by decide⟩
  · simp [vector_add, opPolicy, h]
  · simp [h]
  · simpa using getD_zipWith (· + ·) lhs rhs 0 0 h i
  · simp [vector_sub, opPolicy, h]
  · simp [h]
  · simpa using getD_zipWith (· - ·) lhs rhs 0 0 h i

/-- C5 witness at concrete inputs. -/
theorem C5_elementwise_witness :
    vector_add VKind.vector VKind.vector ([1, 2, 3] : List Int) [3, 2, 1]
      = some (VResult.fresh [4, 4, 4]) ∧
    vector_sub VKind.vector VKind.vector ([1, 2, 3] : List Int) [3, 2, 1]
      = some (VResult.fresh [-2, 0, 2]) := by
  have h := C5_elementwise [5] [7] (by decide) 0
  exact ⟨h.2.2.1, h.2.2.2.1⟩

/-- C6: slicing over a half-open in-bounds range [start, stop) with
stop ≤ length yields the view of exactly the elements at indices
start..stop, for both `Vector::to_slice` and `MutVector::as_slice`, and
slicing with an out-of-bounds range (stop > length) fails — a bounds panic,
modelled `none` — rather than returning a recoverable view. -/
theorem C6_slice_range (v : Vector Int) (m : MutVector Int) (start stop : Nat) :
    (start ≤ stop → stop ≤ v.len →
      v.to_slice start stop
        = some ⟨(List.range (stop - start)).map (fun i => v.values.getD (start + i) 0)⟩) ∧
    (v.len < stop → v.to_slice start stop = none) ∧
    (start ≤ stop → stop ≤ m.len →
      m.as_slice start stop
        = some ⟨(List.range (stop - start)).map (fun i => m.values.getD (start + i) 0)⟩) ∧
    (m.len < stop → m.as_slice start stop = none) := by
  refine ⟨fun h1 h2 => ?_, fun h => ?_, fun h1 h2 => ?_, fun h => ?_⟩
  · simp [Vector.to_slice, (split_slice_spec v.values start stop).1 h1 h2]
  · simp [Vector.to_slice, (split_slice_spec v.values start stop).2 h]
  · simp [MutVector.as_slice, (split_slice_spec m.values start stop).1 h1 h2]
  · simp [MutVector.as_slice, (split_slice_spec m.values start stop).2 h]

/-- C6 witness at concrete inputs. -/
theorem C6_slice_range_witness :
    Vector.to_slice (⟨[1, 2, 3, 4]⟩ : Vector Int) 0 2 = some ⟨[1, 2]⟩ ∧
    Vector.to_slice (⟨[1, 2, 3, 4]⟩ : Vector Int) 0 5 = none := by
  have h2 := C6_slice_range ⟨[1, 2, 3, 4]⟩ ⟨[1, 2, 3, 4]⟩ 0 2
  have h5 := C6_slice_range ⟨[1, 2, 3, 4]⟩ ⟨[1, 2, 3, 4]⟩ 0 5
  constructor
  · rw [h2.1 (by decide) (by decide)]
    decide
  · exact h5.2.1 (by decide)

/-- C7: for equal-or-unequal-length containers that are not Mut variants,
over an element type whose addition is commutative, A + B and B + A
produce the same result (both a fresh Vector with the same elements, or
both the same SizeMismatch failure). -/
theorem C7_add_comm {α : Type} [Add α] (comm : ∀ a b : α, a + b = b + a)
    (lk rk : VKind) (hl : lk.is_mut = false) (hr : rk.is_mut = false)
    (A B : List α) :
    vector_add lk rk A B = vector_add lk rk B A := by
  have hp : opPolicy lk rk = Policy.plain := by
    cases lk <;> cases rk <;> simp_all [VKind.is_mut, opPolicy]
  by_cases h : A.length = B.length
  · unfold vector_add
    rw [if_pos h, if_pos h.symm]
    simp only [hp]
    rw [List.zipWith_comm_of_comm (· + ·) comm A B]
  · have h' : ¬ B.length = A.length := fun e => h e.symm
    unfold vector_add
    rw [if_neg h, if_neg h']

/-- C7 witness at concrete inputs. -/
theorem C7_add_comm_witness :
    vector_add VKind.vector VKind.vectorSlice ([1, 2, 3] : List Int) [3, 2, 1]
      = vector_add VKind.vector VKind.vectorSlice [3, 2, 1] [1, 2, 3] :=
  C7_add_comm (fun a b => Int.add_comm a b) VKind.vector VKind.vectorSlice
    rfl rfl [1, 2, 3] [3, 2, 1]

/-- C8: map fusion — mapping f and then g equals mapping the composition
x ↦ g (f x), both for `Vector::map` and for the trait-level map over the
element sequence any of the four variants exposes through `iter()`. -/
theorem C8_map_fusion {α β γ : Type} (f : α → β) (g : β → γ)
    (v : Vector α) (values : List α) :
    (v.map f).map g = v.map (fun x => g (f x)) ∧
    map_via_iter g (map_via_iter f values).values
      = map_via_iter (fun x => g (f x)) values := by
  constructor <;> simp [Vector.map, map_via_iter, Function.comp]

/-- C9: map_index_mut invokes f once per index in ascending order (the
i-th invocation is f i), every value f returns is discarded, the elements
are left unchanged, and the same container is returned. -/
theorem C9_map_index_mut {α β : Type} (v : MutVector α) (f : Nat → β) :
    (MutVector.map_index_mut v f).1 = v ∧
    ((MutVector.map_index_mut v f).2).length = v.values.length ∧
    (∀ i, i < v.values.length → ((MutVector.map_index_mut v f).2)[i]? = some (f i)) := by
  refine ⟨rfl, by simp [MutVector.map_index_mut, map_index_mut], ?_⟩
  intro i hi
  simp [MutVector.map_index_mut, map_index_mut, List.getElem?_range hi]

/-- C9 witness at concrete inputs. -/
theorem C9_map_index_mut_witness :
    (MutVector.map_index_mut (⟨[10, 20]⟩ : MutVector Int) (fun i => i + 100)).1
      = ⟨[10, 20]⟩ ∧
    ((MutVector.map_index_mut (⟨[10, 20]⟩ : MutVector Int) (fun i => i + 100)).2)[1]?
      = some 101 := by
  have h := C9_map_index_mut (⟨[10, 20]⟩ : MutVector Int) (fun i => i + 100)
  exact ⟨h.1, h.2.2 1 (by decide)⟩

/-- C10: to_slice with start ≤ length and an inverted or empty range
(stop ≤ start) succeeds with an empty view rather than failing, and in
general an in-range call returns the window of stop - start (saturating
at 0, by Nat subtraction) elements beginning at index start. -/
theorem C10_empty_range (v : Vector Int) (start stop : Nat) :
    (start ≤ v.len → stop ≤ start → v.to_slice start stop = some ⟨[]⟩) ∧
    (start ≤ v.len → stop - start ≤ v.len - start →
      v.to_slice start stop = some ⟨(v.values.drop start).take (stop - start)⟩) := by
  constructor
  · intro h1 h2
    have hz : stop - start = 0 := Nat.sub_eq_zero_of_le h2
    simp [Vector.to_slice,
      split_slice_in_range v.values start stop h1 (by simp [hz]), hz]
  · intro h1 h2
    simp [Vector.to_slice, split_slice_in_range v.values start stop h1 h2]

/-- C10 witness at concrete inputs. -/
theorem C10_empty_range_witness :
    Vector.to_slice (⟨[1, 2, 3, 4]⟩ : Vector Int) 3 1 = some ⟨[]⟩ :=
  (C10_empty_range ⟨[1, 2, 3, 4]⟩ 3 1).1 (by decide) (by decide)

end AdvLinAlg
